import Mathlib

/-!
# Verification of the automaton execution engine (`src/parser/automata.rs`)

Shallow embedding of the arena-based automaton engine.  The Rust arena
(`Army`, a `typed_arena::Arena<Automaton>`) is modelled as a `List Automaton`;
a `Rawtomaton` raw-pointer handle is modelled as the `Nat` index of the
automaton in that list.  Allocation (`Arena::alloc`) appends at the end and
returns the fresh index; the arena never frees or moves entries, so indices
are stable, exactly like the stable raw pointers in the source.

`Rule` is `core::any::TypeId` in the source: an opaque equality-comparable
identifier, modelled as `Nat`.
-/

namespace GenParser

/-- Continuation policy on an ancestry link (`enum Continuation`). -/
inductive Continuation where
  | PassDie
  | PassAdvance
  | Advance
deriving Repr, DecidableEq

/-- One automaton (`struct Automaton`).  `parent` is `None` for a root or
`Some (handle, continuation)`; `children` is the ordered list of completed
child handles. -/
structure Automaton where
  rule : Nat
  route : Nat
  state : Nat
  parent : Option (Nat × Continuation)
  children : List Nat
deriving Repr, DecidableEq

instance : Inhabited Automaton := ⟨⟨0, 0, 0, none, []⟩⟩

/-- The Rust `PartialEq for Automaton`: equality is exactly the
(rule, route, state) triple; `parent` and `children` are ignored. -/
def Automaton.eqRust (a b : Automaton) : Bool :=
  a.rule == b.rule && a.route == b.route && a.state == b.state

/-- `Automaton::new`: fresh automaton, state 0, no parent, no children. -/
def Automaton.new (rule route : Nat) : Automaton :=
  { rule := rule, route := route, state := 0, parent := none, children := [] }

/-- Commands (`enum AutomatonCommand`).  `Recruit`'s `how_many` is the
`count` field. -/
inductive AutomatonCommand where
  | Recruit (rule route how_many : Nat) (on_victory : Continuation)
  | Advance
  | Victory
  | Die
  | Fallthrough
deriving Repr, DecidableEq

/-- The arena (`struct Army`): the list of all automata allocated so far,
in allocation order.  A handle is an index into this list. -/
abbrev Army := List Automaton

/-- Dereference a handle (`**h`).  Total via a default for out-of-range
indices; all handles used in the development are in range. -/
def getA (army : Army) (i : Nat) : Automaton :=
  List.getD army i default

/-- Overwrite the automaton a handle points to (in-place mutation through
a raw pointer in the source). -/
def setA (army : Army) (i : Nat) (a : Automaton) : Army :=
  List.set army i a

/-- `Arena::alloc`: append, return the fresh handle. -/
def alloc (army : Army) (a : Automaton) : Army × Nat :=
  (army ++ [a], List.length army)

/-- `Army::recruit`: allocate `Automaton::new rule route`. -/
def recruit (army : Army) (rule route : Nat) : Army × Nat :=
  alloc army (Automaton.new rule route)

/-- `struct CommandResult`. -/
structure CommandResult where
  new_recruits : List Nat
  reactivated : List Nat
  victorious : Option Nat
  remove : Bool
  fallthrough : Bool
deriving Repr, DecidableEq

/-- `CommandResult::default()`. -/
def CommandResult.base : CommandResult :=
  { new_recruits := [], reactivated := [], victorious := none,
    remove := false, fallthrough := false }

/-- The memoized `get_clone` closure: returns the shared clone of `auto`,
allocating it on first use only.  State is `(army, memo)`. -/
def getClone (army : Army) (memo : Option Nat) (auto : Nat) :
    Army × Option Nat × Nat :=
  match memo with
  | some c => (army, some c, c)
  | none =>
    let p := alloc army (getA army auto)
    (p.1, some p.2, p.2)

/-- The `for i in 0..*how_many` loop of the `Recruit` arm.  Each iteration
recruits at `route` (the source uses `route + i`; here `route` is advanced
each step), then parents the recruit onto `auto` directly when `die` is
still set (clearing it), else onto the shared memoized clone. -/
def recruitLoop (auto rule : Nat) (cont : Continuation) :
    Nat → Nat → Bool → Army → Option Nat → List Nat →
    Army × Option Nat × List Nat
  | _, 0, _, army, memo, acc => (army, memo, acc)
  | route, n + 1, die, army, memo, acc =>
    let p := recruit army rule route
    if die then
      let army2 := setA p.1 p.2
        { getA p.1 p.2 with parent := some (auto, cont) }
      recruitLoop auto rule cont (route + 1) n false army2 memo (acc ++ [p.2])
    else
      let q := getClone p.1 memo auto
      let army2 := setA q.1 p.2
        { getA q.1 p.2 with parent := some (q.2.2, cont) }
      recruitLoop auto rule cont (route + 1) n die army2 q.2.1 (acc ++ [p.2])

/-- The `Victory` propagation loop.  `fuel` bounds the number of ancestor
hops; `Army.command` supplies fuel no smaller than the length of the
ancestry chain, so for an acyclic ancestry relation the loop runs to
completion exactly as the unbounded Rust `loop` does. -/
def victoryLoop : Nat → Army → Nat → Bool → CommandResult →
    Army × CommandResult
  | 0, army, _, _, res => (army, res)
  | fuel + 1, army, auto, die, res =>
    match (getA army auto).parent with
    | none => (army, { res with victorious := some auto })
    | some (parent, cont) =>
      if die then
        let army1 := setA army parent
          { getA army parent with
              state := (getA army parent).state + 1,
              children := (getA army parent).children ++ [auto] }
        match cont with
        | Continuation.PassDie => victoryLoop fuel army1 parent true res
        | Continuation.PassAdvance =>
          victoryLoop fuel army1 parent false
            { res with reactivated := res.reactivated ++ [parent] }
        | Continuation.Advance =>
          (army1, { res with reactivated := res.reactivated ++ [parent] })
      else
        let p := alloc army (getA army parent)
        let q := alloc p.1 (getA p.1 auto)
        let army3 := setA q.1 p.2
          { getA q.1 p.2 with
              state := (getA q.1 p.2).state + 1,
              children := (getA q.1 p.2).children ++ [q.2] }
        match cont with
        | Continuation.PassDie => victoryLoop fuel army3 p.2 true res
        | Continuation.PassAdvance =>
          victoryLoop fuel army3 p.2 false
            { res with reactivated := res.reactivated ++ [p.2] }
        | Continuation.Advance =>
          (army3, { res with reactivated := res.reactivated ++ [p.2] })

/-- One iteration of the `for action in &actions` loop of `Army::command`.
`hasDie` is `actions.contains(&Die)` (the batch is immutable during the
call, so the repeated `contains` tests in the source all yield this value).
The threaded state is `(army, clone memo, result)`. -/
def commandStep (hasDie : Bool) (auto : Nat) :
    Army × Option Nat × CommandResult → AutomatonCommand →
    Army × Option Nat × CommandResult
  | (army, memo, res), AutomatonCommand.Advance =>
    (setA army auto { getA army auto with state := (getA army auto).state + 1 },
     memo, res)
  | (army, memo, res), AutomatonCommand.Die =>
    (army, memo, { res with remove := true })
  | (army, memo, res), AutomatonCommand.Recruit rule route how_many on_victory =>
    let p := recruitLoop auto rule on_victory route how_many hasDie army memo []
    (p.1, p.2.1, { res with new_recruits := res.new_recruits ++ p.2.2 })
  | (army, memo, res), AutomatonCommand.Victory =>
    let army1 := setA army auto
      { getA army auto with state := (getA army auto).state + 1 }
    let p := victoryLoop (List.length army1) army1 auto hasDie res
    (p.1, memo, p.2)
  | (army, memo, res), AutomatonCommand.Fallthrough =>
    (army, memo, { res with fallthrough := true })

/-- `Army::command`: apply a batch of commands in order to the automaton at
handle `auto`; returns the final arena and the `CommandResult`. -/
def Army.command (army : Army) (auto : Nat) (actions : List AutomatonCommand) :
    Army × CommandResult :=
  let hasDie := List.contains actions AutomatonCommand.Die
  let p := List.foldl (commandStep hasDie auto) (army, none, CommandResult.base)
    actions
  (p.1, p.2.2)

/-- Applying a sequence of command batches, each addressed to some handle:
the driver loop's repeated use of `Army::command`. -/
def runBatches (army : Army) (bs : List (Nat × List AutomatonCommand)) : Army :=
  List.foldl (fun ar b => (Army.command ar b.1 b.2).1) army bs

/-- Concrete one-automaton arena used by the witness theorems: a single
root automaton with rule 9, route 4, state 5. -/
def armyW : Army := [⟨9, 4, 5, none, []⟩]

/-- Concrete two-automaton arena: a root parent `P` (handle 0, state 3)
and its child `A` (handle 1, continuation `Advance`). -/
def armyP : Army :=
  [⟨1, 0, 3, none, [9]⟩, ⟨2, 0, 7, some (0, Continuation.Advance), []⟩]

/-- Concrete four-automaton ancestry chain
`A (3) -PassDie-> P (2) -PassAdvance-> Q (1) -Advance-> S (0)`. -/
def armyC : Army :=
  [⟨1, 0, 10, none, []⟩,
   ⟨2, 0, 20, some (0, Continuation.Advance), []⟩,
   ⟨3, 0, 30, some (1, Continuation.PassAdvance), []⟩,
   ⟨4, 0, 40, some (2, Continuation.PassDie), []⟩]

/-- The block of automata appended by the `Recruit` loop while the shared
clone `c` is already memoized: one fresh automaton per remaining count,
with consecutive routes, all parenting onto `c`. -/
def recSuffix (rule c : Nat) (cont : Continuation) : Nat → Nat → List Automaton
  | _, 0 => []
  | route, n + 1 =>
    ⟨rule, route, 0, some (c, cont), []⟩ :: recSuffix rule c cont (route + 1) n

/-- Consecutive handles `L, L+1, …, L+n-1`. -/
def idxList : Nat → Nat → List Nat
  | _, 0 => []
  | L, n + 1 => L :: idxList (L + 1) n

/-- Verification predicate: arena `b` extends arena `a` and no automaton's
`state` field has decreased. -/
def StateLe (a b : Army) : Prop :=
  a.length ≤ b.length ∧
  ∀ j, j < a.length → (getA a j).state ≤ (getA b j).state

/-- Verification predicate: arena `b` extends arena `a` and every
automaton of `a` is bit-for-bit unchanged in `b`. -/
def Untouched (a b : Army) : Prop :=
  a.length ≤ b.length ∧ ∀ j, j < a.length → getA b j = getA a j

/-! ## Basic facts about handles, `getA`, `setA`, `alloc` -/

theorem length_setA (army : Army) (i : Nat) (a : Automaton) :
    (setA army i a).length = army.length :=
  List.length_set army i a

theorem getA_setA_self (army : Army) {i : Nat} (a : Automaton)
    (h : i < army.length) : getA (setA army i a) i = a := by
  simp [getA, setA, List.getD_eq_getElem?_getD, List.getElem?_set_eq_of_lt a h]

theorem getA_setA_ne (army : Army) {i j : Nat} (a : Automaton) (h : i ≠ j) :
    getA (setA army i a) j = getA army j := by
  simp [getA, setA, List.getD_eq_getElem?_getD, List.getElem?_set_ne h]

theorem getA_append_left (army l : Army) {i : Nat} (h : i < army.length) :
    getA (army ++ l) i = getA army i := by
  simp [getA, List.getD_eq_getElem?_getD, List.getElem?_append_left h]

theorem getA_append_add (army l : Army) (k : Nat) :
    getA (army ++ l) (army.length + k) = getA l k := by
  simp [getA, List.getD_eq_getElem?_getD,
    List.getElem?_append_right (Nat.le_add_right army.length k)]

theorem getA_append_len (army l : Army) :
    getA (army ++ l) army.length = getA l 0 := by
  have := getA_append_add army l 0
  simpa using this

theorem getA_append_at_len (army l : Army) (k : Nat) (h : k = army.length) :
    getA (army ++ l) k = getA l 0 := by
  rw [h, getA_append_len]

theorem getA_cons_zero (a : Automaton) (l : Army) : getA (a :: l) 0 = a := rfl

theorem getA_cons_succ (a : Automaton) (l : Army) (k : Nat) :
    getA (a :: l) (k + 1) = getA l k := rfl

theorem getA_cons3 (a b d : Automaton) (l : Army) (k : Nat) :
    getA (a :: b :: d :: l) (k + 3) = getA l k := rfl

theorem getA_mem (l : Army) (k : Nat) (hk : k < l.length) : getA l k ∈ l := by
  rw [getA, List.getD_eq_getElem?_getD, List.getElem?_eq_getElem hk]
  exact List.getElem_mem hk

theorem setA_cons_zero (a b : Automaton) (l : Army) :
    setA (a :: l) 0 b = b :: l := rfl

theorem setA_cons_succ (a b : Automaton) (l : Army) (k : Nat) :
    setA (a :: l) (k + 1) b = a :: setA l k b := rfl

theorem setA_append_add (army : Army) :
    ∀ (l : Army) (k : Nat) (b : Automaton),
      setA (army ++ l) (army.length + k) b = army ++ setA l k b := by
  induction army with
  | nil => intro l k b; simp [setA]
  | cons a as ih =>
    intro l k b
    simp only [List.cons_append, List.length_cons, setA, Nat.succ_add,
      List.set_cons_succ]
    exact congrArg (a :: ·) (ih l k b)

theorem setA_append_len (army l : Army) (b : Automaton) :
    setA (army ++ l) army.length b = army ++ setA l 0 b := by
  have := setA_append_add army l 0 b
  simpa using this

/-! ## Reduction of the derived `BEq` tests used by `actions.contains(&Die)` -/

theorem beq_die_recruit (r rt n : Nat) (c : Continuation) :
    (AutomatonCommand.Die == AutomatonCommand.Recruit r rt n c) = false := rfl

theorem beq_die_advance :
    (AutomatonCommand.Die == AutomatonCommand.Advance) = false := rfl

theorem beq_die_victory :
    (AutomatonCommand.Die == AutomatonCommand.Victory) = false := rfl

theorem beq_die_die :
    (AutomatonCommand.Die == AutomatonCommand.Die) = true := rfl

theorem beq_die_fallthrough :
    (AutomatonCommand.Die == AutomatonCommand.Fallthrough) = false := rfl

/-! ## Claims -/

/-- C8: `Army::recruit` always succeeds — it is a total function that
appends `Automaton::new rule route` to the arena — and the automaton at
the returned handle has `state = 0`, the given rule and route, no parent
and no children. -/
theorem recruit_fresh (army : Army) (rule route : Nat) :
    (recruit army rule route).1 = army ++
      [{ rule := rule, route := route, state := 0, parent := none,
         children := [] }] ∧
    (recruit army rule route).2 = army.length ∧
    getA (recruit army rule route).1 (recruit army rule route).2 =
      { rule := rule, route := route, state := 0, parent := none,
        children := [] } := by
  refine ⟨rfl, rfl, ?_⟩
  simp [recruit, alloc, Automaton.new, getA_append_len, getA_cons_zero]

/-- C9: the Rust `PartialEq for Automaton` holds between `X` and `Y`
exactly when the (rule, route, state) triples agree; the `parent` link and
the `children` collection play no role. -/
theorem eqRust_iff_triple (X Y : Automaton) :
    Automaton.eqRust X Y = true ↔
      X.rule = Y.rule ∧ X.route = Y.route ∧ X.state = Y.state := by
  simp [Automaton.eqRust, and_assoc]

/-- C10: an empty command batch returns the all-default `CommandResult`
and leaves the whole arena — the target automaton and every other one —
unchanged. -/
theorem command_nil (army : Army) (auto : Nat) :
    Army.command army auto [] =
      (army, { new_recruits := [], reactivated := [], victorious := none,
               remove := false, fallthrough := false }) := rfl

/-- C3: batch `[Recruit{rule=R, route=0, count=2, on_victory=Advance}]`
with no `Die`: exactly two recruits (handles `L` and `L+2`, where `L` is
the pre-call arena size), with `state = 0`, rule `R`, routes 0 and 1, both
parenting onto the single lazily created clone of `A` at handle `L+1`
(which is not `A`'s handle); `A` and every pre-existing automaton are left
completely unchanged. -/
theorem recruit_no_die_branching (army : Army) (auto R : Nat)
    (h : auto < army.length) :
    Army.command army auto [AutomatonCommand.Recruit R 0 2 Continuation.Advance] =
      (army ++ [⟨R, 0, 0, some (army.length + 1, Continuation.Advance), []⟩,
                getA army auto,
                ⟨R, 1, 0, some (army.length + 1, Continuation.Advance), []⟩],
       { new_recruits := [army.length, army.length + 2], reactivated := [],
         victorious := none, remove := false, fallthrough := false }) ∧
    getA (Army.command army auto
        [AutomatonCommand.Recruit R 0 2 Continuation.Advance]).1 auto =
      getA army auto ∧
    army.length + 1 ≠ auto := by
  have hcf : Army.command army auto
      [AutomatonCommand.Recruit R 0 2 Continuation.Advance] =
      (army ++ [⟨R, 0, 0, some (army.length + 1, Continuation.Advance), []⟩,
                getA army auto,
                ⟨R, 1, 0, some (army.length + 1, Continuation.Advance), []⟩],
       { new_recruits := [army.length, army.length + 2], reactivated := [],
         victorious := none, remove := false, fallthrough := false }) := by
    simp [Army.command, List.contains, List.elem, beq_die_recruit,
      commandStep, recruitLoop, getClone, recruit, alloc, Automaton.new,
      CommandResult.base, getA_append_left, h,
      getA_append_len, getA_append_add, setA_append_len, setA_append_add,
      getA_cons_zero, getA_cons_succ, setA_cons_zero, setA_cons_succ]
  refine ⟨hcf, ?_, by omega⟩
  rw [hcf]
  exact getA_append_left army _ h

/-- Witness for C3 on the one-automaton arena `armyW` (state 5). -/
theorem recruit_no_die_branching_w :
    Army.command armyW 0 [AutomatonCommand.Recruit 7 0 2 Continuation.Advance] =
      (armyW ++ [⟨7, 0, 0, some (2, Continuation.Advance), []⟩,
                 getA armyW 0,
                 ⟨7, 1, 0, some (2, Continuation.Advance), []⟩],
       { new_recruits := [1, 3], reactivated := [],
         victorious := none, remove := false, fallthrough := false }) ∧
    getA (Army.command armyW 0
        [AutomatonCommand.Recruit 7 0 2 Continuation.Advance]).1 0 =
      getA armyW 0 ∧
    (2 : Nat) ≠ 0 :=
  recruit_no_die_branching armyW 0 7 (by decide)

/-- C2: batch `[Recruit{rule=R, route=0, count=2, on_victory}, Die]`:
`remove = true`, exactly the two recruits `L` and `L+1`; the first
recruit's parent is handle `auto` itself, the second's parent is the
distinct handle `L+2` whose (rule, route, state) value equals `A`'s
pre-call value. -/
theorem recruit_die_branching (army : Army) (auto R : Nat)
    (cont : Continuation) (h : auto < army.length) :
    (Army.command army auto
        [AutomatonCommand.Recruit R 0 2 cont, AutomatonCommand.Die]).2.remove
      = true ∧
    (Army.command army auto
        [AutomatonCommand.Recruit R 0 2 cont,
         AutomatonCommand.Die]).2.new_recruits
      = [army.length, army.length + 1] ∧
    (getA (Army.command army auto
        [AutomatonCommand.Recruit R 0 2 cont, AutomatonCommand.Die]).1
        army.length).parent = some (auto, cont) ∧
    (getA (Army.command army auto
        [AutomatonCommand.Recruit R 0 2 cont, AutomatonCommand.Die]).1
        (army.length + 1)).parent = some (army.length + 2, cont) ∧
    army.length + 2 ≠ auto ∧
    Automaton.eqRust
      (getA (Army.command army auto
        [AutomatonCommand.Recruit R 0 2 cont, AutomatonCommand.Die]).1
        (army.length + 2))
      (getA army auto) = true := by
  have hcf : Army.command army auto
      [AutomatonCommand.Recruit R 0 2 cont, AutomatonCommand.Die] =
      (army ++ [⟨R, 0, 0, some (auto, cont), []⟩,
                ⟨R, 1, 0, some (army.length + 2, cont), []⟩,
                getA army auto],
       { new_recruits := [army.length, army.length + 1], reactivated := [],
         victorious := none, remove := true, fallthrough := false }) := by
    simp [Army.command, List.contains, List.elem, beq_die_recruit,
      beq_die_die, commandStep, recruitLoop, getClone, recruit, alloc,
      Automaton.new, CommandResult.base, getA_append_left, h,
      getA_append_len, getA_append_add, setA_append_len, setA_append_add,
      getA_cons_zero, getA_cons_succ, setA_cons_zero, setA_cons_succ]
  rw [hcf]
  refine ⟨rfl, rfl, ?_, ?_, by omega, ?_⟩
  · rw [getA_append_len, getA_cons_zero]
  · rw [getA_append_add, getA_cons_succ, getA_cons_zero]
  · rw [show army.length + 2 = army.length + 2 from rfl, getA_append_add,
      getA_cons_succ, getA_cons_succ, getA_cons_zero]
    simp [Automaton.eqRust]

/-- Witness for C2 on the one-automaton arena `armyW`. -/
theorem recruit_die_branching_w :
    (Army.command armyW 0
        [AutomatonCommand.Recruit 7 0 2 Continuation.Advance,
         AutomatonCommand.Die]).2.remove = true ∧
    (Army.command armyW 0
        [AutomatonCommand.Recruit 7 0 2 Continuation.Advance,
         AutomatonCommand.Die]).2.new_recruits = [1, 2] ∧
    (getA (Army.command armyW 0
        [AutomatonCommand.Recruit 7 0 2 Continuation.Advance,
         AutomatonCommand.Die]).1 1).parent
      = some (0, Continuation.Advance) ∧
    (getA (Army.command armyW 0
        [AutomatonCommand.Recruit 7 0 2 Continuation.Advance,
         AutomatonCommand.Die]).1 2).parent
      = some (3, Continuation.Advance) ∧
    (3 : Nat) ≠ 0 ∧
    Automaton.eqRust
      (getA (Army.command armyW 0
        [AutomatonCommand.Recruit 7 0 2 Continuation.Advance,
         AutomatonCommand.Die]).1 3)
      (getA armyW 0) = true :=
  recruit_die_branching armyW 0 7 Continuation.Advance (by decide)

/-! ## Single-hop unfolding lemmas for the `Victory` propagation loop -/

theorem command_victory_eq (army : Army) (auto : Nat) :
    Army.command army auto [AutomatonCommand.Victory] =
      victoryLoop
        (List.length (setA army auto
          { getA army auto with state := (getA army auto).state + 1 }))
        (setA army auto
          { getA army auto with state := (getA army auto).state + 1 })
        auto false CommandResult.base := by
  simp [Army.command, List.contains, List.elem, beq_die_victory, commandStep]

theorem victoryLoop_root (ar : Army) (auto fuel : Nat) (die : Bool)
    (res : CommandResult) (hpar : (getA ar auto).parent = none) :
    victoryLoop (fuel + 1) ar auto die res =
      (ar, { res with victorious := some auto }) := by
  simp [victoryLoop, hpar]

theorem victoryLoop_mut_passdie (ar : Army) (auto p fuel : Nat)
    (res : CommandResult)
    (hpar : (getA ar auto).parent = some (p, Continuation.PassDie)) :
    victoryLoop (fuel + 1) ar auto true res =
      victoryLoop fuel
        (setA ar p
          { getA ar p with
              state := (getA ar p).state + 1,
              children := (getA ar p).children ++ [auto] })
        p true res := by
  simp [victoryLoop, hpar]

theorem victoryLoop_mut_passadvance (ar : Army) (auto p fuel : Nat)
    (res : CommandResult)
    (hpar : (getA ar auto).parent = some (p, Continuation.PassAdvance)) :
    victoryLoop (fuel + 1) ar auto true res =
      victoryLoop fuel
        (setA ar p
          { getA ar p with
              state := (getA ar p).state + 1,
              children := (getA ar p).children ++ [auto] })
        p false { res with reactivated := res.reactivated ++ [p] } := by
  simp [victoryLoop, hpar]

theorem victoryLoop_mut_advance (ar : Army) (auto p fuel : Nat)
    (res : CommandResult)
    (hpar : (getA ar auto).parent = some (p, Continuation.Advance)) :
    victoryLoop (fuel + 1) ar auto true res =
      (setA ar p
        { getA ar p with
            state := (getA ar p).state + 1,
            children := (getA ar p).children ++ [auto] },
       { res with reactivated := res.reactivated ++ [p] }) := by
  simp [victoryLoop, hpar]

theorem victoryLoop_clone_passdie (ar : Army) (auto p fuel : Nat)
    (res : CommandResult) (hauto : auto < ar.length)
    (hpar : (getA ar auto).parent = some (p, Continuation.PassDie)) :
    victoryLoop (fuel + 1) ar auto false res =
      victoryLoop fuel
        (ar ++
          [{ getA ar p with
               state := (getA ar p).state + 1,
               children := (getA ar p).children ++ [ar.length + 1] },
           getA ar auto])
        ar.length true res := by
  simp [victoryLoop, hpar, alloc, getA_append_left, hauto, getA_append_len,
    getA_cons_zero, setA_append_len, setA_cons_zero, List.append_assoc]

theorem victoryLoop_clone_passadvance (ar : Army) (auto p fuel : Nat)
    (res : CommandResult) (hauto : auto < ar.length)
    (hpar : (getA ar auto).parent = some (p, Continuation.PassAdvance)) :
    victoryLoop (fuel + 1) ar auto false res =
      victoryLoop fuel
        (ar ++
          [{ getA ar p with
               state := (getA ar p).state + 1,
               children := (getA ar p).children ++ [ar.length + 1] },
           getA ar auto])
        ar.length false
        { res with reactivated := res.reactivated ++ [ar.length] } := by
  simp [victoryLoop, hpar, alloc, getA_append_left, hauto, getA_append_len,
    getA_cons_zero, setA_append_len, setA_cons_zero, List.append_assoc]

theorem victoryLoop_clone_advance (ar : Army) (auto p fuel : Nat)
    (res : CommandResult) (hauto : auto < ar.length)
    (hpar : (getA ar auto).parent = some (p, Continuation.Advance)) :
    victoryLoop (fuel + 1) ar auto false res =
      (ar ++
         [{ getA ar p with
              state := (getA ar p).state + 1,
              children := (getA ar p).children ++ [ar.length + 1] },
          getA ar auto],
       { res with reactivated := res.reactivated ++ [ar.length] }) := by
  simp [victoryLoop, hpar, alloc, getA_append_left, hauto, getA_append_len,
    getA_cons_zero, setA_append_len, setA_cons_zero, List.append_assoc]

/-- C6: `Victory` on a parentless automaton, with no `Die` in the batch:
`victorious = Some A` with `A`'s state incremented by exactly 1; no
recruits, no reactivated, `fallthrough = false`, and `remove = false` —
the victorious root is reported but not marked for removal. -/
theorem root_victory (army : Army) (auto : Nat) (hauto : auto < army.length)
    (hpar : (getA army auto).parent = none) :
    Army.command army auto [AutomatonCommand.Victory] =
      (setA army auto
         { getA army auto with state := (getA army auto).state + 1 },
       { new_recruits := [], reactivated := [], victorious := some auto,
         remove := false, fallthrough := false }) ∧
    getA (Army.command army auto [AutomatonCommand.Victory]).1 auto =
      { getA army auto with state := (getA army auto).state + 1 } := by
  have h1 : getA (setA army auto
      { getA army auto with state := (getA army auto).state + 1 }) auto =
      { getA army auto with state := (getA army auto).state + 1 } :=
    getA_setA_self _ _ hauto
  have hfu : List.length (setA army auto
      { getA army auto with state := (getA army auto).state + 1 }) =
      (army.length - 1) + 1 := by
    rw [length_setA]; omega
  have hp1 : (getA (setA army auto
      { getA army auto with state := (getA army auto).state + 1 })
      auto).parent = none := by
    rw [h1]; exact hpar
  constructor
  · rw [command_victory_eq, hfu, victoryLoop_root _ _ _ _ _ hp1]
    rfl
  · rw [command_victory_eq, hfu, victoryLoop_root _ _ _ _ _ hp1]
    exact h1

/-- Witness for C6: `armyW`'s only automaton is parentless; its state goes
from 5 to 6 and it is reported victorious without being removed. -/
theorem root_victory_w :
    Army.command armyW 0 [AutomatonCommand.Victory] =
      (setA armyW 0
         { getA armyW 0 with state := (getA armyW 0).state + 1 },
       { new_recruits := [], reactivated := [], victorious := some 0,
         remove := false, fallthrough := false }) ∧
    getA (Army.command armyW 0 [AutomatonCommand.Victory]).1 0 =
      { getA armyW 0 with state := (getA armyW 0).state + 1 } :=
  root_victory armyW 0 (by decide) (by decide)

/-- C4: `A` has parent `P` with continuation `Advance`; batch `[Victory]`
(no `Die`): `victorious = None`, `reactivated = [P']` where `P'` is the
fresh clone at handle `army.length` (not `P`'s handle), `P'.state =
P.state + 1`, and `P'.children` ends with a node (handle `army.length+1`)
equal to `A` after its victory state increment; the original `P` is left
untouched. -/
theorem propagated_victory (army : Army) (auto p : Nat)
    (hauto : auto < army.length) (hp : p < army.length) (hne : p ≠ auto)
    (hpar : (getA army auto).parent = some (p, Continuation.Advance)) :
    Army.command army auto [AutomatonCommand.Victory] =
      (setA army auto
         { getA army auto with state := (getA army auto).state + 1 } ++
       [{ getA army p with
            state := (getA army p).state + 1,
            children := (getA army p).children ++ [army.length + 1] },
        { getA army auto with state := (getA army auto).state + 1 }],
       { new_recruits := [], reactivated := [army.length],
         victorious := none, remove := false, fallthrough := false }) ∧
    getA (Army.command army auto [AutomatonCommand.Victory]).1 army.length =
      { getA army p with
          state := (getA army p).state + 1,
          children := (getA army p).children ++ [army.length + 1] } ∧
    getA (Army.command army auto [AutomatonCommand.Victory]).1
        (army.length + 1) =
      { getA army auto with state := (getA army auto).state + 1 } ∧
    getA (Army.command army auto [AutomatonCommand.Victory]).1 p =
      getA army p ∧
    army.length ≠ p := by
  have hA1 : getA (setA army auto
      { getA army auto with state := (getA army auto).state + 1 }) auto =
      { getA army auto with state := (getA army auto).state + 1 } :=
    getA_setA_self _ _ hauto
  have hP1 : getA (setA army auto
      { getA army auto with state := (getA army auto).state + 1 }) p =
      getA army p :=
    getA_setA_ne _ _ (Ne.symm hne)
  have hL1 : List.length (setA army auto
      { getA army auto with state := (getA army auto).state + 1 }) =
      army.length := length_setA _ _ _
  have hfu : List.length (setA army auto
      { getA army auto with state := (getA army auto).state + 1 }) =
      (army.length - 1) + 1 := by rw [hL1]; omega
  have hpar1 : (getA (setA army auto
      { getA army auto with state := (getA army auto).state + 1 })
      auto).parent = some (p, Continuation.Advance) := by
    rw [hA1]; exact hpar
  have hauto1 : auto < List.length (setA army auto
      { getA army auto with state := (getA army auto).state + 1 }) := by
    rw [hL1]; exact hauto
  have hcf : Army.command army auto [AutomatonCommand.Victory] =
      (setA army auto
         { getA army auto with state := (getA army auto).state + 1 } ++
       [{ getA army p with
            state := (getA army p).state + 1,
            children := (getA army p).children ++ [army.length + 1] },
        { getA army auto with state := (getA army auto).state + 1 }],
       { new_recruits := [], reactivated := [army.length],
         victorious := none, remove := false, fallthrough := false }) := by
    rw [command_victory_eq, hfu,
      victoryLoop_clone_advance _ _ _ _ _ (hfu ▸ hauto1) hpar1]
    rw [hA1, hP1, hL1]
    rfl
  refine ⟨hcf, ?_, ?_, ?_, by omega⟩
  · rw [hcf]
    show getA (setA army auto _ ++ _) army.length = _
    rw [← hL1, getA_append_len, getA_cons_zero, hL1]
  · rw [hcf]
    show getA (setA army auto _ ++ _) (army.length + 1) = _
    rw [← hL1, getA_append_add, getA_cons_succ, getA_cons_zero]
  · rw [hcf]
    show getA (setA army auto _ ++ _) p = _
    rw [getA_append_left _ _ (by rw [hL1]; exact hp), hP1]

/-- Witness for C4: a two-automaton arena, parent `P` at handle 0 with
state 3, child `A` at handle 1 with continuation `Advance`. -/
theorem propagated_victory_w :
    Army.command armyP 1 [AutomatonCommand.Victory] =
      (setA armyP 1
         { getA armyP 1 with state := (getA armyP 1).state + 1 } ++
       [{ getA armyP 0 with
            state := (getA armyP 0).state + 1,
            children := (getA armyP 0).children ++ [3] },
        { getA armyP 1 with state := (getA armyP 1).state + 1 }],
       { new_recruits := [], reactivated := [2],
         victorious := none, remove := false, fallthrough := false }) ∧
    getA (Army.command armyP 1 [AutomatonCommand.Victory]).1 2 =
      { getA armyP 0 with
          state := (getA armyP 0).state + 1,
          children := (getA armyP 0).children ++ [3] } ∧
    getA (Army.command armyP 1 [AutomatonCommand.Victory]).1 3 =
      { getA armyP 1 with state := (getA armyP 1).state + 1 } ∧
    getA (Army.command armyP 1 [AutomatonCommand.Victory]).1 0 =
      getA armyP 0 ∧
    (2 : Nat) ≠ 0 :=
  propagated_victory armyP 1 0 (by decide) (by decide) (by decide) (by decide)

/-- C5: one `Victory` propagation through the ancestry chain
`A -PassDie-> P -PassAdvance-> Q -Advance-> S`, batch `[Victory]` with no
`Die`.  After the `PassDie` link the `die` flag is true, so the next
ancestor `Q` is mutated in place (state incremented, current node appended
to its children) rather than cloned, even though the batch contained no
`Die`; the `PassAdvance` link then resets `die` to false (so the next
ancestor `S` is cloned, the original left untouched) and records the
mutated parent `Q` as reactivated while propagation continues past it.
Exactly four nodes are allocated (clone of `P`, clone of `A`, clone of
`S`, clone of the current node) — none for the in-place `PassDie` hop. -/
theorem victory_passdie_passadvance (army : Army) (auto p q s : Nat)
    (hauto : auto < army.length) (hp : p < army.length)
    (hq : q < army.length) (hs : s < army.length)
    (hpa : p ≠ auto) (hqa : q ≠ auto) (hqp : q ≠ p)
    (hsa : s ≠ auto) (hsp : s ≠ p) (hsq : s ≠ q)
    (hparA : (getA army auto).parent = some (p, Continuation.PassDie))
    (hparP : (getA army p).parent = some (q, Continuation.PassAdvance))
    (hparQ : (getA army q).parent = some (s, Continuation.Advance)) :
    getA (Army.command army auto [AutomatonCommand.Victory]).1 q =
      { getA army q with
          state := (getA army q).state + 1,
          children := (getA army q).children ++ [army.length] } ∧
    getA (Army.command army auto [AutomatonCommand.Victory]).1 s =
      getA army s ∧
    getA (Army.command army auto [AutomatonCommand.Victory]).1
        (army.length + 2) =
      { getA army s with
          state := (getA army s).state + 1,
          children := (getA army s).children ++ [army.length + 3] } ∧
    (Army.command army auto [AutomatonCommand.Victory]).2.reactivated =
      [q, army.length + 2] ∧
    (Army.command army auto [AutomatonCommand.Victory]).1.length =
      army.length + 4 ∧
    (Army.command army auto [AutomatonCommand.Victory]).2.victorious =
      none := by
  have hA1 : getA (setA army auto
      { getA army auto with state := (getA army auto).state + 1 }) auto =
      { getA army auto with state := (getA army auto).state + 1 } :=
    getA_setA_self _ _ hauto
  have hL1 : List.length (setA army auto
      { getA army auto with state := (getA army auto).state + 1 }) =
      army.length := length_setA _ _ _
  have hauto1 : auto < List.length (setA army auto
      { getA army auto with state := (getA army auto).state + 1 }) := by
    rw [hL1]; exact hauto
  have hparA1 : (getA (setA army auto
      { getA army auto with state := (getA army auto).state + 1 })
      auto).parent = some (p, Continuation.PassDie) := by
    rw [hA1]; exact hparA
  have hP1 : getA (setA army auto
      { getA army auto with state := (getA army auto).state + 1 }) p =
      getA army p := getA_setA_ne _ _ (Ne.symm hpa)
  have hQ1 : getA (setA army auto
      { getA army auto with state := (getA army auto).state + 1 }) q =
      getA army q := getA_setA_ne _ _ (Ne.symm hqa)
  have hS1 : getA (setA army auto
      { getA army auto with state := (getA army auto).state + 1 }) s =
      getA army s := getA_setA_ne _ _ (Ne.symm hsa)
  have hvl : ∀ f : Nat, ∀ res : CommandResult,
      victoryLoop (f + 3)
        (setA army auto
          { getA army auto with state := (getA army auto).state + 1 })
        auto false res =
      (setA
        (setA army auto
            { getA army auto with state := (getA army auto).state + 1 } ++
          [{ getA army p with
               state := (getA army p).state + 1,
               children := (getA army p).children ++ [army.length + 1] },
           { getA army auto with state := (getA army auto).state + 1 }])
        q
        { getA army q with
            state := (getA army q).state + 1,
            children := (getA army q).children ++ [army.length] } ++
       [{ getA army s with
            state := (getA army s).state + 1,
            children := (getA army s).children ++ [army.length + 3] },
        { getA army q with
            state := (getA army q).state + 1,
            children := (getA army q).children ++ [army.length] }],
       { res with reactivated :=
          res.reactivated ++ [q] ++ [army.length + 2] }) := by
    intro f res
    rw [show f + 3 = (f + 2) + 1 from rfl,
      victoryLoop_clone_passdie _ _ _ _ _ hauto1 hparA1, hP1, hA1, hL1]
    have hpar2 : (getA
        (setA army auto
            { getA army auto with state := (getA army auto).state + 1 } ++
          [{ getA army p with
               state := (getA army p).state + 1,
               children := (getA army p).children ++ [army.length + 1] },
           { getA army auto with state := (getA army auto).state + 1 }])
        army.length).parent = some (q, Continuation.PassAdvance) := by
      rw [← hL1, getA_append_len, getA_cons_zero]
      exact hparP
    rw [show f + 2 = (f + 1) + 1 from rfl,
      victoryLoop_mut_passadvance _ _ _ _ _ hpar2]
    have hQ2 : getA
        (setA army auto
            { getA army auto with state := (getA army auto).state + 1 } ++
          [{ getA army p with
               state := (getA army p).state + 1,
               children := (getA army p).children ++ [army.length + 1] },
           { getA army auto with state := (getA army auto).state + 1 }])
        q = getA army q := by
      rw [getA_append_left _ _ (by rw [hL1]; exact hq), hQ1]
    rw [hQ2]
    have hq3 : q < List.length (setA
        (setA army auto
            { getA army auto with state := (getA army auto).state + 1 } ++
          [{ getA army p with
               state := (getA army p).state + 1,
               children := (getA army p).children ++ [army.length + 1] },
           { getA army auto with state := (getA army auto).state + 1 }])
        q
        { getA army q with
            state := (getA army q).state + 1,
            children := (getA army q).children ++ [army.length] }) := by
      rw [length_setA]
      simp only [List.length_append, List.length_cons, List.length_nil, hL1]
      omega
    have hpar3 : (getA (setA
        (setA army auto
            { getA army auto with state := (getA army auto).state + 1 } ++
          [{ getA army p with
               state := (getA army p).state + 1,
               children := (getA army p).children ++ [army.length + 1] },
           { getA army auto with state := (getA army auto).state + 1 }])
        q
        { getA army q with
            state := (getA army q).state + 1,
            children := (getA army q).children ++ [army.length] })
        q).parent = some (s, Continuation.Advance) := by
      rw [getA_setA_self _ _ (by
        simp only [List.length_append, List.length_cons, List.length_nil,
          hL1]
        omega)]
      exact hparQ
    rw [victoryLoop_clone_advance _ _ _ _ _ hq3 hpar3]
    have hS3 : getA (setA
        (setA army auto
            { getA army auto with state := (getA army auto).state + 1 } ++
          [{ getA army p with
               state := (getA army p).state + 1,
               children := (getA army p).children ++ [army.length + 1] },
           { getA army auto with state := (getA army auto).state + 1 }])
        q
        { getA army q with
            state := (getA army q).state + 1,
            children := (getA army q).children ++ [army.length] })
        s = getA army s := by
      rw [getA_setA_ne _ _ (Ne.symm hsq),
        getA_append_left _ _ (by rw [hL1]; exact hs), hS1]
    have hQ3 : getA (setA
        (setA army auto
            { getA army auto with state := (getA army auto).state + 1 } ++
          [{ getA army p with
               state := (getA army p).state + 1,
               children := (getA army p).children ++ [army.length + 1] },
           { getA army auto with state := (getA army auto).state + 1 }])
        q
        { getA army q with
            state := (getA army q).state + 1,
            children := (getA army q).children ++ [army.length] })
        q = { getA army q with
            state := (getA army q).state + 1,
            children := (getA army q).children ++ [army.length] } := by
      exact getA_setA_self _ _ (by
        simp only [List.length_append, List.length_cons, List.length_nil,
          hL1]
        omega)
    rw [hS3, hQ3, length_setA]
    simp only [List.length_append, List.length_cons, List.length_nil, hL1]
  have hcmd : Army.command army auto [AutomatonCommand.Victory] =
      (setA
        (setA army auto
            { getA army auto with state := (getA army auto).state + 1 } ++
          [{ getA army p with
               state := (getA army p).state + 1,
               children := (getA army p).children ++ [army.length + 1] },
           { getA army auto with state := (getA army auto).state + 1 }])
        q
        { getA army q with
            state := (getA army q).state + 1,
            children := (getA army q).children ++ [army.length] } ++
       [{ getA army s with
            state := (getA army s).state + 1,
            children := (getA army s).children ++ [army.length + 3] },
        { getA army q with
            state := (getA army q).state + 1,
            children := (getA army q).children ++ [army.length] }],
       { CommandResult.base with reactivated :=
          CommandResult.base.reactivated ++ [q] ++ [army.length + 2] }) := by
    rw [command_victory_eq, hL1]
    conv_lhs => rw [show army.length = (army.length - 3) + 3 from by omega]
    rw [hvl (army.length - 3) CommandResult.base]
  refine ⟨?_, ?_, ?_, ?_, ?_, ?_⟩
  · rw [hcmd]
    show getA (setA _ q _ ++ _) q = _
    rw [getA_append_left _ _ (by
      simp only [length_setA, List.length_append, List.length_cons,
        List.length_nil, hL1]
      omega)]
    exact getA_setA_self _ _ (by
      simp only [List.length_append, List.length_cons, List.length_nil, hL1]
      omega)
  · rw [hcmd]
    show getA (setA _ q _ ++ _) s = _
    rw [getA_append_left _ _ (by
      simp only [length_setA, List.length_append, List.length_cons,
        List.length_nil, hL1]
      omega)]
    rw [getA_setA_ne _ _ (Ne.symm hsq),
      getA_append_left _ _ (by rw [hL1]; exact hs), hS1]
  · rw [hcmd]
    show getA (setA _ q _ ++ _) (army.length + 2) = _
    rw [getA_append_at_len _ _ _ (by
      simp only [length_setA, List.length_append, List.length_cons,
        List.length_nil, hL1]), getA_cons_zero]
  · rw [hcmd]
    simp [CommandResult.base]
  · rw [hcmd]
    simp only [List.length_append, List.length_cons, List.length_nil,
      length_setA, hL1]
  · rw [hcmd]
    rfl

/-- Witness for C5 on the four-automaton chain `armyC`. -/
theorem victory_passdie_passadvance_w :
    getA (Army.command armyC 3 [AutomatonCommand.Victory]).1 1 =
      { getA armyC 1 with
          state := (getA armyC 1).state + 1,
          children := (getA armyC 1).children ++ [4] } ∧
    getA (Army.command armyC 3 [AutomatonCommand.Victory]).1 0 =
      getA armyC 0 ∧
    getA (Army.command armyC 3 [AutomatonCommand.Victory]).1 6 =
      { getA armyC 0 with
          state := (getA armyC 0).state + 1,
          children := (getA armyC 0).children ++ [7] } ∧
    (Army.command armyC 3 [AutomatonCommand.Victory]).2.reactivated =
      [1, 6] ∧
    (Army.command armyC 3 [AutomatonCommand.Victory]).1.length = 8 ∧
    (Army.command armyC 3 [AutomatonCommand.Victory]).2.victorious = none :=
  victory_passdie_passadvance armyC 3 2 1 0 (by decide) (by decide)
    (by decide) (by decide) (by decide) (by decide) (by decide) (by decide)
    (by decide) (by decide) (by decide) (by decide) (by decide)

/-- C1 counterexample: arena with the single root automaton `A` at handle
0; for the batch `[Recruit{rule=1, count=1}, Recruit{rule=2, count=1},
Die]` (which contains `Die` and two `Recruit` commands), the code parents
BOTH spawned automata (handles 1 and 2) directly onto `A` itself — the
per-`Recruit` `die` flag is re-initialised from the batch for each
`Recruit` command — and no clone is ever created (final arena size 3), so
it is false that exactly one spawned automaton gets `A` as its parent and
that subsequent ones get a shared clone. -/
theorem recruit_die_two_recruits_cx :
    (Army.command [⟨0, 0, 0, none, []⟩] 0
      [AutomatonCommand.Recruit 1 0 1 Continuation.Advance,
       AutomatonCommand.Recruit 2 0 1 Continuation.Advance,
       AutomatonCommand.Die]).2.new_recruits = [1, 2] ∧
    (getA (Army.command [⟨0, 0, 0, none, []⟩] 0
      [AutomatonCommand.Recruit 1 0 1 Continuation.Advance,
       AutomatonCommand.Recruit 2 0 1 Continuation.Advance,
       AutomatonCommand.Die]).1 1).parent =
      some (0, Continuation.Advance) ∧
    (getA (Army.command [⟨0, 0, 0, none, []⟩] 0
      [AutomatonCommand.Recruit 1 0 1 Continuation.Advance,
       AutomatonCommand.Recruit 2 0 1 Continuation.Advance,
       AutomatonCommand.Die]).1 2).parent =
      some (0, Continuation.Advance) ∧
    (Army.command [⟨0, 0, 0, none, []⟩] 0
      [AutomatonCommand.Recruit 1 0 1 Continuation.Advance,
       AutomatonCommand.Recruit 2 0 1 Continuation.Advance,
       AutomatonCommand.Die]).1.length = 3 := by
  decide

/-! ## Closed form of the `Recruit` loop once the shared clone is memoized -/

theorem recSuffix_length (rule c : Nat) (cont : Continuation) :
    ∀ (n route : Nat), (recSuffix rule c cont route n).length = n := by
  intro n
  induction n with
  | zero => intro route; rfl
  | succ m ih => intro route; simp [recSuffix, ih]

theorem recSuffix_parent (rule c : Nat) (cont : Continuation) :
    ∀ (n route : Nat) (a : Automaton),
      a ∈ recSuffix rule c cont route n → a.parent = some (c, cont) := by
  intro n
  induction n with
  | zero => intro route a ha; simp [recSuffix] at ha
  | succ m ih =>
    intro route a ha
    simp only [recSuffix, List.mem_cons] at ha
    rcases ha with ha | ha
    · rw [ha]
    · exact ih (route + 1) a ha

theorem idxList_length : ∀ (n L : Nat), (idxList L n).length = n := by
  intro n
  induction n with
  | zero => intro L; rfl
  | succ m ih => intro L; simp [idxList, ih]

theorem idxList_mem : ∀ (n L i : Nat), i ∈ idxList L n → L ≤ i ∧ i < L + n := by
  intro n
  induction n with
  | zero => intro L i hi; simp [idxList] at hi
  | succ m ih =>
    intro L i hi
    simp only [idxList, List.mem_cons] at hi
    rcases hi with hi | hi
    · omega
    · have := ih (L + 1) i hi
      omega

theorem recruitLoop_memo (auto rule : Nat) (cont : Continuation) (c : Nat) :
    ∀ (n route : Nat) (army : Army) (acc : List Nat),
      recruitLoop auto rule cont route n false army (some c) acc =
        (army ++ recSuffix rule c cont route n, some c,
         acc ++ idxList army.length n) := by
  intro n
  induction n with
  | zero =>
    intro route army acc
    simp [recruitLoop, recSuffix, idxList]
  | succ m ih =>
    intro route army acc
    simp only [recruitLoop, recruit, alloc, getClone]
    rw [if_neg (by simp)]
    rw [ih]
    simp [recSuffix, idxList, getA_append_len, getA_cons_zero,
      setA_append_len, setA_cons_zero, Automaton.new, List.append_assoc]

/-- C1 (amended): for a batch containing `Die` and a single `Recruit`
command with `count = n ≥ 1`, exactly one spawned automaton — the first —
gets `A` itself as its parent; every subsequent spawned automaton gets as
parent the single shared shallow clone of `A` at handle `army.length + 2`
(distinct from `A`, holding `A`'s value), created lazily at most once per
batch regardless of `n` (the final arena size accounts for exactly one
clone when `n ≥ 2` and none when `n = 1`). -/
theorem recruit_die_single_recruit (army : Army) (auto R route n : Nat)
    (cont : Continuation) (h : auto < army.length) (hn : 1 ≤ n) :
    (Army.command army auto
      [AutomatonCommand.Recruit R route n cont,
       AutomatonCommand.Die]).2.remove = true ∧
    (Army.command army auto
      [AutomatonCommand.Recruit R route n cont,
       AutomatonCommand.Die]).2.new_recruits.length = n ∧
    (Army.command army auto
      [AutomatonCommand.Recruit R route n cont,
       AutomatonCommand.Die]).2.new_recruits.head? = some army.length ∧
    (getA (Army.command army auto
      [AutomatonCommand.Recruit R route n cont,
       AutomatonCommand.Die]).1 army.length).parent = some (auto, cont) ∧
    (∀ i, i ∈ (Army.command army auto
      [AutomatonCommand.Recruit R route n cont,
       AutomatonCommand.Die]).2.new_recruits.tail →
      (getA (Army.command army auto
        [AutomatonCommand.Recruit R route n cont,
         AutomatonCommand.Die]).1 i).parent =
        some (army.length + 2, cont)) ∧
    army.length + 2 ≠ auto ∧
    (2 ≤ n → Automaton.eqRust
      (getA (Army.command army auto
        [AutomatonCommand.Recruit R route n cont,
         AutomatonCommand.Die]).1 (army.length + 2))
      (getA army auto) = true) ∧
    (Army.command army auto
      [AutomatonCommand.Recruit R route n cont,
       AutomatonCommand.Die]).1.length =
      army.length + n + (if 2 ≤ n then 1 else 0) := by
  rcases n with _ | n1
  · omega
  rcases n1 with _ | m
  · have hcf : Army.command army auto
        [AutomatonCommand.Recruit R route 1 cont, AutomatonCommand.Die] =
        (army ++ [⟨R, route, 0, some (auto, cont), []⟩],
         { new_recruits := [army.length], reactivated := [],
           victorious := none, remove := true, fallthrough := false }) := by
      simp [Army.command, List.contains, List.elem, beq_die_recruit,
        beq_die_die, commandStep, recruitLoop, recruit, alloc,
        Automaton.new, CommandResult.base, setA_append_len, setA_cons_zero,
        getA_append_len, getA_cons_zero]
    rw [hcf]
    refine ⟨rfl, rfl, rfl, ?_, ?_, by omega, by omega, ?_⟩
    · rw [getA_append_len, getA_cons_zero]
    · intro i hi
      simp at hi
    · simp
  · have hcf : Army.command army auto
        [AutomatonCommand.Recruit R route (m + 2) cont,
         AutomatonCommand.Die] =
        (army ++ (⟨R, route, 0, some (auto, cont), []⟩ :
            Automaton) :: ⟨R, route + 1, 0,
            some (army.length + 2, cont), []⟩ :: getA army auto ::
          recSuffix R (army.length + 2) cont (route + 2) m,
         { new_recruits := army.length :: (army.length + 1) ::
             idxList (army.length + 3) m,
           reactivated := [], victorious := none, remove := true,
           fallthrough := false }) := by
      simp only [Army.command, List.contains, List.elem, beq_die_recruit,
        beq_die_die, List.foldl, commandStep]
      simp [recruitLoop, getClone, recruit, alloc, Automaton.new,
        CommandResult.base, getA_append_left, h, getA_append_len,
        getA_cons_zero, getA_append_add, getA_cons_succ, setA_append_len,
        setA_cons_zero, setA_append_add, setA_cons_succ, recruitLoop_memo,
        recSuffix, idxList]
    rw [hcf]
    refine ⟨rfl, ?_, rfl, ?_, ?_, by omega, ?_, ?_⟩
    · simp [idxList_length]
    · rw [getA_append_len, getA_cons_zero]
    · intro i hi
      simp only [List.tail_cons, List.mem_cons] at hi
      rcases hi with hi | hi
      · rw [hi, getA_append_add, getA_cons_succ, getA_cons_zero]
      · have hb := idxList_mem m (army.length + 3) i hi
        rw [show i = army.length + (i - army.length - 3 + 3) from by omega,
          getA_append_add, getA_cons3]
        exact recSuffix_parent R (army.length + 2) cont m (route + 2) _
          (getA_mem _ _ (by rw [recSuffix_length]; omega))
    · intro h2
      rw [getA_append_add, getA_cons_succ, getA_cons_succ, getA_cons_zero]
      simp [Automaton.eqRust]
    · rw [if_pos (by omega)]
      simp [recSuffix_length]
      omega

/-- Witness for the amended C1: the one-automaton arena `armyW`,
`count = 3`. -/
theorem recruit_die_single_recruit_w :
    (Army.command armyW 0
      [AutomatonCommand.Recruit 7 5 3 Continuation.PassAdvance,
       AutomatonCommand.Die]).2.remove = true ∧
    (Army.command armyW 0
      [AutomatonCommand.Recruit 7 5 3 Continuation.PassAdvance,
       AutomatonCommand.Die]).2.new_recruits.length = 3 ∧
    (Army.command armyW 0
      [AutomatonCommand.Recruit 7 5 3 Continuation.PassAdvance,
       AutomatonCommand.Die]).2.new_recruits.head? = some 1 ∧
    (getA (Army.command armyW 0
      [AutomatonCommand.Recruit 7 5 3 Continuation.PassAdvance,
       AutomatonCommand.Die]).1 1).parent =
      some (0, Continuation.PassAdvance) ∧
    (∀ i, i ∈ (Army.command armyW 0
      [AutomatonCommand.Recruit 7 5 3 Continuation.PassAdvance,
       AutomatonCommand.Die]).2.new_recruits.tail →
      (getA (Army.command armyW 0
        [AutomatonCommand.Recruit 7 5 3 Continuation.PassAdvance,
         AutomatonCommand.Die]).1 i).parent =
        some (3, Continuation.PassAdvance)) ∧
    (3 : Nat) ≠ 0 ∧
    ((2 : Nat) ≤ 3 → Automaton.eqRust
      (getA (Army.command armyW 0
        [AutomatonCommand.Recruit 7 5 3 Continuation.PassAdvance,
         AutomatonCommand.Die]).1 3)
      (getA armyW 0) = true) ∧
    (Army.command armyW 0
      [AutomatonCommand.Recruit 7 5 3 Continuation.PassAdvance,
       AutomatonCommand.Die]).1.length =
      1 + 3 + (if (2 : Nat) ≤ 3 then 1 else 0) :=
  recruit_die_single_recruit armyW 0 7 5 3 Continuation.PassAdvance
    (by decide) (by decide)

/-! ## State monotonicity through every operation -/

theorem stateLe_refl (a : Army) : StateLe a a :=
  ⟨Nat.le_refl _, fun _ _ => Nat.le_refl _⟩

theorem stateLe_trans {a b c : Army} (h1 : StateLe a b) (h2 : StateLe b c) :
    StateLe a c :=
  ⟨Nat.le_trans h1.1 h2.1,
   fun j hj => Nat.le_trans (h1.2 j hj) (h2.2 j (Nat.lt_of_lt_of_le hj h1.1))⟩

theorem setA_oob (army : Army) (i : Nat) (x : Automaton)
    (h : army.length ≤ i) : setA army i x = army :=
  List.set_eq_of_length_le h

theorem stateLe_append (a l : Army) : StateLe a (a ++ l) := by
  refine ⟨by simp, fun j hj => ?_⟩
  rw [getA_append_left _ _ hj]

theorem stateLe_setA (a : Army) (i : Nat) (x : Automaton)
    (hx : (getA a i).state ≤ x.state) : StateLe a (setA a i x) := by
  by_cases hi : i < a.length
  · refine ⟨by rw [length_setA], fun j hj => ?_⟩
    by_cases hij : i = j
    · subst hij
      rw [getA_setA_self _ _ hi]
      exact hx
    · rw [getA_setA_ne _ _ hij]
  · rw [setA_oob _ _ _ (by omega)]
    exact stateLe_refl a

theorem recruitLoop_stateLe (auto rule : Nat) (cont : Continuation) :
    ∀ (n route : Nat) (die : Bool) (army : Army) (memo : Option Nat)
      (acc : List Nat),
      StateLe army (recruitLoop auto rule cont route n die army memo acc).1 := by
  intro n
  induction n with
  | zero =>
    intro route die army memo acc
    exact stateLe_refl army
  | succ m ih =>
    intro route die army memo acc
    cases die with
    | true =>
      simp only [recruitLoop, recruit, alloc, if_pos]
      refine stateLe_trans ?_ (ih _ _ _ _ _)
      refine stateLe_trans (stateLe_append army _) (stateLe_setA _ _ _ ?_)
      exact Nat.le_refl _
    | false =>
      cases memo with
      | some c =>
        simp only [recruitLoop, recruit, alloc, getClone]
        rw [if_neg (by simp)]
        refine stateLe_trans ?_ (ih _ _ _ _ _)
        refine stateLe_trans (stateLe_append army _) (stateLe_setA _ _ _ ?_)
        exact Nat.le_refl _
      | none =>
        simp only [recruitLoop, recruit, alloc, getClone]
        rw [if_neg (by simp)]
        refine stateLe_trans ?_ (ih _ _ _ _ _)
        refine stateLe_trans (stateLe_append army _)
          (stateLe_trans (stateLe_append _ _) (stateLe_setA _ _ _ ?_))
        exact Nat.le_refl _

theorem victoryLoop_stateLe :
    ∀ (fuel : Nat) (army : Army) (auto : Nat) (die : Bool)
      (res : CommandResult),
      StateLe army (victoryLoop fuel army auto die res).1 := by
  intro fuel
  induction fuel with
  | zero => intro army auto die res; exact stateLe_refl army
  | succ f ih =>
    intro army auto die res
    rcases hpar : (getA army auto).parent with _ | ⟨p, cont⟩
    · simp only [victoryLoop, hpar]
      exact stateLe_refl army
    · cases die with
      | true =>
        simp only [victoryLoop, hpar, if_pos]
        cases cont with
        | PassDie =>
          exact stateLe_trans (stateLe_setA _ _ _ (Nat.le_succ _)) (ih _ _ _ _)
        | PassAdvance =>
          exact stateLe_trans (stateLe_setA _ _ _ (Nat.le_succ _)) (ih _ _ _ _)
        | Advance =>
          exact stateLe_setA _ _ _ (Nat.le_succ _)
      | false =>
        simp only [victoryLoop, hpar, alloc]
        rw [if_neg (by simp)]
        cases cont with
        | PassDie =>
          refine stateLe_trans ?_ (ih _ _ _ _)
          refine stateLe_trans (stateLe_append army _)
            (stateLe_trans (stateLe_append _ _) (stateLe_setA _ _ _ ?_))
          exact Nat.le_succ _
        | PassAdvance =>
          refine stateLe_trans ?_ (ih _ _ _ _)
          refine stateLe_trans (stateLe_append army _)
            (stateLe_trans (stateLe_append _ _) (stateLe_setA _ _ _ ?_))
          exact Nat.le_succ _
        | Advance =>
          refine stateLe_trans (stateLe_append army _)
            (stateLe_trans (stateLe_append _ _) (stateLe_setA _ _ _ ?_))
          exact Nat.le_succ _

theorem commandStep_stateLe (hasDie : Bool) (auto : Nat)
    (st : Army × Option Nat × CommandResult) (a : AutomatonCommand) :
    StateLe st.1 (commandStep hasDie auto st a).1 := by
  obtain ⟨army, memo, res⟩ := st
  cases a with
  | Recruit rule route how_many on_victory =>
    simp only [commandStep]
    exact recruitLoop_stateLe auto rule on_victory how_many route hasDie
      army memo []
  | Advance =>
    simp only [commandStep]
    exact stateLe_setA _ _ _ (Nat.le_succ _)
  | Victory =>
    simp only [commandStep]
    exact stateLe_trans (stateLe_setA _ _ _ (Nat.le_succ _))
      (victoryLoop_stateLe _ _ _ _ _)
  | Die => exact stateLe_refl army
  | Fallthrough => exact stateLe_refl army

theorem foldl_stateLe (hasDie : Bool) (auto : Nat) :
    ∀ (actions : List AutomatonCommand)
      (st : Army × Option Nat × CommandResult),
      StateLe st.1 (List.foldl (commandStep hasDie auto) st actions).1 := by
  intro actions
  induction actions with
  | nil => intro st; exact stateLe_refl st.1
  | cons a as ih =>
    intro st
    exact stateLe_trans (commandStep_stateLe hasDie auto st a) (ih _)

theorem command_stateLe (army : Army) (auto : Nat)
    (actions : List AutomatonCommand) :
    StateLe army (Army.command army auto actions).1 :=
  foldl_stateLe _ auto actions (army, none, CommandResult.base)

theorem runBatches_stateLe :
    ∀ (bs : List (Nat × List AutomatonCommand)) (army : Army),
      StateLe army (runBatches army bs) := by
  intro bs
  induction bs with
  | nil => intro army; exact stateLe_refl army
  | cons b bs ih =>
    intro army
    exact stateLe_trans (command_stateLe army b.1 b.2) (ih _)

/-! ## Frame: commands other than `Advance` and `Victory` never modify any
pre-existing automaton -/

theorem untouched_refl (a : Army) : Untouched a a :=
  ⟨Nat.le_refl _, fun _ _ => rfl⟩

theorem untouched_trans {a b c : Army} (h1 : Untouched a b)
    (h2 : Untouched b c) : Untouched a c :=
  ⟨Nat.le_trans h1.1 h2.1,
   fun j hj => (h2.2 j (Nat.lt_of_lt_of_le hj h1.1)).trans (h1.2 j hj)⟩

theorem untouched_append {orig b : Army} (hU : Untouched orig b) (l : Army) :
    Untouched orig (b ++ l) := by
  refine ⟨Nat.le_trans hU.1 (by simp), fun j hj => ?_⟩
  rw [getA_append_left _ _ (Nat.lt_of_lt_of_le hj hU.1), hU.2 j hj]

theorem untouched_setA_fresh {orig b : Army} (hU : Untouched orig b)
    (i : Nat) (hi : orig.length ≤ i) (x : Automaton) :
    Untouched orig (setA b i x) := by
  refine ⟨by rw [length_setA]; exact hU.1, fun j hj => ?_⟩
  rw [getA_setA_ne _ _ (by omega), hU.2 j hj]

theorem recruitLoop_untouched (auto rule : Nat) (cont : Continuation) :
    ∀ (n route : Nat) (die : Bool) (army : Army) (memo : Option Nat)
      (acc : List Nat) (orig : Army),
      Untouched orig army →
      Untouched orig (recruitLoop auto rule cont route n die army memo acc).1 := by
  intro n
  induction n with
  | zero =>
    intro route die army memo acc orig hU
    exact hU
  | succ m ih =>
    intro route die army memo acc orig hU
    cases die with
    | true =>
      simp only [recruitLoop, recruit, alloc, if_pos]
      refine ih _ _ _ _ _ _ (untouched_setA_fresh (untouched_append hU _) _
        (by exact hU.1) _)
    | false =>
      cases memo with
      | some c =>
        simp only [recruitLoop, recruit, alloc, getClone]
        rw [if_neg (by simp)]
        refine ih _ _ _ _ _ _ (untouched_setA_fresh (untouched_append hU _) _
          (by exact hU.1) _)
      | none =>
        simp only [recruitLoop, recruit, alloc, getClone]
        rw [if_neg (by simp)]
        refine ih _ _ _ _ _ _ (untouched_setA_fresh
          (untouched_append (untouched_append hU _) _) _ (by exact hU.1) _)

theorem commandStep_untouched (hasDie : Bool) (auto : Nat)
    (st : Army × Option Nat × CommandResult) (a : AutomatonCommand)
    (hA : a ≠ AutomatonCommand.Advance)
    (hV : a ≠ AutomatonCommand.Victory) :
    Untouched st.1 (commandStep hasDie auto st a).1 := by
  obtain ⟨army, memo, res⟩ := st
  cases a with
  | Recruit rule route how_many on_victory =>
    simp only [commandStep]
    exact recruitLoop_untouched auto rule on_victory how_many route hasDie
      army memo [] army (untouched_refl army)
  | Advance => exact absurd rfl hA
  | Victory => exact absurd rfl hV
  | Die => exact untouched_refl army
  | Fallthrough => exact untouched_refl army

theorem foldl_untouched (hasDie : Bool) (auto : Nat) :
    ∀ (actions : List AutomatonCommand)
      (st : Army × Option Nat × CommandResult),
      AutomatonCommand.Advance ∉ actions →
      AutomatonCommand.Victory ∉ actions →
      Untouched st.1 (List.foldl (commandStep hasDie auto) st actions).1 := by
  intro actions
  induction actions with
  | nil => intro st _ _; exact untouched_refl st.1
  | cons a as ih =>
    intro st hA hV
    refine untouched_trans
      (commandStep_untouched hasDie auto st a
        (fun he => hA (he ▸ List.mem_cons_self a as))
        (fun he => hV (he ▸ List.mem_cons_self a as)))
      (ih _ (fun hm => hA (List.mem_cons_of_mem a hm))
        (fun hm => hV (List.mem_cons_of_mem a hm)))

theorem command_untouched (army : Army) (auto : Nat)
    (actions : List AutomatonCommand)
    (hA : AutomatonCommand.Advance ∉ actions)
    (hV : AutomatonCommand.Victory ∉ actions) :
    Untouched army (Army.command army auto actions).1 :=
  foldl_untouched _ auto actions (army, none, CommandResult.base) hA hV

/-- C7: an automaton's `state` is non-decreasing over any sequence of
command batches, and a batch containing neither `Advance` nor `Victory`
leaves every pre-existing automaton bit-for-bit unchanged — only the
`Advance` command and the state-increment steps of `Victory` ever write to
a `state` field, and each such write adds exactly 1. -/
theorem state_monotone (army : Army) (auto : Nat)
    (actions : List AutomatonCommand)
    (bs : List (Nat × List AutomatonCommand)) (j : Nat)
    (hj : j < army.length) :
    (getA army j).state ≤ (getA (runBatches army bs) j).state ∧
    (AutomatonCommand.Advance ∉ actions →
     AutomatonCommand.Victory ∉ actions →
     getA (Army.command army auto actions).1 j = getA army j) ∧
    (auto = j →
     getA (Army.command army auto [AutomatonCommand.Advance]).1 j =
       { getA army j with state := (getA army j).state + 1 }) := by
  refine ⟨(runBatches_stateLe bs army).2 j hj,
    fun hA hV => (command_untouched army auto actions hA hV).2 j hj, ?_⟩
  intro he
  subst he
  show getA (setA army auto
    { getA army auto with state := (getA army auto).state + 1 }) auto = _
  exact getA_setA_self _ _ hj

/-- Witness for C7 on `armyW`: two batches (`Advance` then `Victory`), and
a frame batch `[Recruit, Die]`. -/
theorem state_monotone_w :
    (getA armyW 0).state ≤
      (getA (runBatches armyW [(0, [AutomatonCommand.Advance]),
        (0, [AutomatonCommand.Victory])]) 0).state ∧
    getA (Army.command armyW 0
      [AutomatonCommand.Recruit 7 0 2 Continuation.Advance,
       AutomatonCommand.Die]).1 0 = getA armyW 0 ∧
    getA (Army.command armyW 0 [AutomatonCommand.Advance]).1 0 =
      { getA armyW 0 with state := (getA armyW 0).state + 1 } :=
  ⟨(state_monotone armyW 0
      [AutomatonCommand.Recruit 7 0 2 Continuation.Advance,
       AutomatonCommand.Die]
      [(0, [AutomatonCommand.Advance]), (0, [AutomatonCommand.Victory])] 0
      (by decide)).1,
   (state_monotone armyW 0
      [AutomatonCommand.Recruit 7 0 2 Continuation.Advance,
       AutomatonCommand.Die]
      [(0, [AutomatonCommand.Advance]), (0, [AutomatonCommand.Victory])] 0
      (by decide)).2.1 (by decide) (by decide),
   (state_monotone armyW 0
      [AutomatonCommand.Recruit 7 0 2 Continuation.Advance,
       AutomatonCommand.Die]
      [(0, [AutomatonCommand.Advance]), (0, [AutomatonCommand.Victory])] 0
      (by decide)).2.2 rfl⟩

end GenParser
